import Mathlib

/-!
Verification of the goal-oriented action-planning engine (Highcliff core)
and of the auxiliary sensor-feed script `src/aws/iot/python/generate_data.py`.

The core library (World, Capability, Registry, Planner, Executor/AI, Diary)
is exercised by `src/examples/test_examples.py` but its implementation is not
among the sources; following the specification, those components are modelled
here from the spec's own words (each such definition carries a
`Modelled from the spec:` doc comment).  The sensor-feed script is embedded
directly from its source.
-/

namespace Highcliff

/-- Modelled from the spec: the World is "a mapping from condition name to
boolean value" (§3).  It is embedded as an association list from condition
names to booleans, in insertion order, as a Python dict would hold it. -/
def World : Type := List (String × Bool)

instance : DecidableEq World := by
  unfold World; infer_instance

/-- Lookup of a condition name in a world mapping (first matching key). -/
def World.lookup (w : World) (k : String) : Option Bool :=
  match w with
  | [] => none
  | (k', v) :: rest => if k' = k then some v else World.lookup rest k

/-- Insert-or-overwrite of a single key, keeping the position of an existing
key and appending a new key at the end, as a Python dict assignment does. -/
def World.insertKV (w : World) (k : String) (v : Bool) : World :=
  match w with
  | [] => [(k, v)]
  | (k', v') :: rest =>
    if k' = k then (k, v) :: rest else (k', v') :: World.insertKV rest k v

/-- Modelled from the spec: `World.update(patch)` "merges `patch` into the
live mapping; no error conditions; no validation of keys/values" (§4.1);
"updates are merges (new keys added, existing keys overwritten), never full
replacement" (§3). -/
def World.update (w : World) (patch : List (String × Bool)) : World :=
  patch.foldl (fun acc kv => World.insertKV acc kv.1 kv.2) w

/-- The value the last occurrence of a key in a patch assigns, if any. -/
def findLast (p : List (String × Bool)) (k : String) : Option Bool :=
  match p with
  | [] => none
  | (k', v) :: rest =>
    match findLast rest k with
    | some v₂ => some v₂
    | none => if k' = k then some v else none

/-- Modelled from the spec: the action `status` is "one of SUCCESS, FAIL" (§3). -/
inductive ActionStatus where
  | SUCCESS
  | FAIL
deriving DecidableEq

/-- Modelled from the spec: a Capability (Action) is "a unit of behavior with a
fixed precondition set, a fixed effect set, and an overridable execution
routine" (§2); effects and preconditions "are fixed at construction time"
(§3).  The `behavior()` routine of the capability implementations in scope is
modelled by its observable outcome: "a subclass may override specific effect
keys during `behavior()` to simulate failure" (§4.2), so it is embedded as the
patch of effect-key overrides that running the routine performs before the
merge (the empty patch is a no-op behavior).  `id` is the capability's
registration index, standing for its distinct identity (§3: "duplicates
allowed by distinct identity"). -/
structure Capability where
  id : Nat
  preconditions : List (String × Bool)
  effects : List (String × Bool)
  behaviorPatch : List (String × Bool)
deriving DecidableEq

/-- Modelled from the spec: a capability type as written by a capability
author: "a fixed `preconditions` mapping, a fixed `effects` mapping, and a
`behavior()` override" (§6).  A type that does not supply the override has
`behavior = none`. -/
structure CapabilityClass where
  preconditions : List (String × Bool)
  effects : List (String × Bool)
  behavior : Option (List (String × Bool))
deriving DecidableEq

/-- Modelled from the spec: the shared environment ("network"): the World and
the Capability Registry, "process-wide collection of all instantiated
capabilities" (§2), an "ordered sequence of registered capabilities
(insertion order preserved)" (§3). -/
structure Network where
  world : World
  registry : List Capability
deriving DecidableEq

/-- The registry query used by the planner: `all()` returns the "ordered
sequence of all registered capabilities" (§4.3). -/
def Network.capabilities (net : Network) : List Capability :=
  net.registry

/-- Modelled from the spec: world update through the network handle. -/
def Network.update_the_world (net : Network) (patch : List (String × Bool)) :
    Network :=
  { net with world := World.update net.world patch }

/-- Modelled from the spec: capability construction "validates that a
`behavior` override exists — failing with an AbstractMethodError-equivalent
if not" and otherwise "registers itself in the Registry" (§4.2); a failed
construction "must not register the capability" (§7). -/
def construct (net : Network) (cls : CapabilityClass) :
    Except String (Network × Capability) :=
  match cls.behavior with
  | none => Except.error "NotImplementedError"
  | some patch =>
    let c : Capability :=
      ⟨net.registry.length, cls.preconditions, cls.effects, patch⟩
    Except.ok ({ net with registry := net.registry ++ [c] }, c)

/-- Construction as seen from the environment: on a construction error the
exception propagates to the caller and the network is untouched. -/
def tryConstruct (net : Network) (cls : CapabilityClass) :
    Network × Option Capability :=
  match construct net cls with
  | Except.error _ => (net, none)
  | Except.ok (net', c) => (net', some c)

/-- A sequence of capability constructions, performed in order. -/
def constructAll : Network → List CapabilityClass → Network × List Capability
  | net, [] => (net, [])
  | net, cls :: rest =>
    let r := tryConstruct net cls
    let r2 := constructAll r.1 rest
    (r2.1, match r.2 with | none => r2.2 | some c => c :: r2.2)

/-- The capability's effects as they stand after `behavior()` ran: the
declared effects with the behavior's overrides applied. -/
def Capability.effectsAfterBehavior (c : Capability) : List (String × Bool) :=
  World.update c.effects c.behaviorPatch

/-- Modelled from the spec: `act()` "executes `behavior()`", then mutates "the
shared World via merge with `effects` (subject to any override performed
inside `behavior()` before the merge)", and "records a status of SUCCESS when
final effect values match the declared effects, FAIL otherwise" (§4.2). -/
def Capability.act (c : Capability) (w : World) : World × ActionStatus :=
  let w' := World.update w c.effectsAfterBehavior
  let ok := c.effects.all (fun kv => World.lookup w' kv.1 == some kv.2)
  (w', if ok then ActionStatus.SUCCESS else ActionStatus.FAIL)

/-- Modelled from the spec: "absent keys are treated as unknown/false when
checked, never as an error" (§3): a required condition holds in a world when
the looked-up value, defaulting to false, matches the required value. -/
def condHolds (w : World) (k : String) (v : Bool) : Bool :=
  (World.lookup w k).getD false == v

/-- The preconditions of a list that are not met by the current world. -/
def unmet (w : World) (pre : List (String × Bool)) : List (String × Bool) :=
  pre.filter (fun kv => !(condHolds w kv.1 kv.2))

/-- Modelled from the spec: a plan step, "each referencing exactly one
capability" (§3). -/
structure PlanStep where
  action : Capability
deriving DecidableEq

/-- Tie-break rule of the planner search (§4.4): among the candidates (which
are listed in registration order) "prefer the capability with the fewest
unmet preconditions (cheapest), and on remaining ties, prefer earliest
registration order". -/
def pickBest (w : World) (cands : List Capability) : Option Capability :=
  match cands with
  | [] => none
  | c :: rest =>
    some (rest.foldl
      (fun best x =>
        if (unmet w x.preconditions).length < (unmet w best.preconditions).length
        then x else best) c)

/-- The candidates for one goal condition: the registered capabilities, in
registration order, "whose `effects` contains that condition with the
matching value" (§4.4), the cycle guard excluding the banned ones. -/
def candidatesFor (registry banned : List Capability) (k : String) (v : Bool) :
    List Capability :=
  registry.filter
    (fun c => (World.lookup c.effects k == some v) && !(banned.contains c))

/-- Joining the steps found for one goal condition with the plan for the
remaining conditions: failure on either side fails the whole cycle (no
backtracking, §4.4), and a step already present is "referenced once in the
plan, not duplicated" (§4.4). -/
def combineSteps (steps? rest? : Option (List PlanStep)) :
    Option (List PlanStep) :=
  match steps?, rest? with
  | some steps, some more =>
    some (steps ++ more.filter (fun s => !(steps.contains s)))
  | _, _ => none

/-- Modelled from the spec: the Planner's goal-regression search (§4.4).
"For each unsatisfied goal condition, select from the registry a capability
whose `effects` contains that condition with the matching value.  If the
capability's own `preconditions` are already satisfied by the current world,
it is directly usable as a plan step.  If not, preconditions become a
sub-goal recursively planned for first (insert the sub-plan's steps before
this capability's step)."  The `banned` list is the cycle guard: "an action
must never be selected as its own (transitive) precondition-satisfier";
`none` is a planning failure, and no backtracking is attempted (§4.4).
`fuel` bounds the recursion depth; each recursive descent bans one more
capability, so a large enough fuel is never exhausted. -/
def planAux (registry : List Capability) (w : World) :
    Nat → List Capability → List (String × Bool) → Option (List PlanStep)
  | _, _, [] => some []
  | 0, _, _ :: _ => none
  | fuel + 1, banned, (k, v) :: rest =>
    if condHolds w k v then planAux registry w fuel banned rest
    else
      match pickBest w (candidatesFor registry banned k v) with
      | none => none
      | some c =>
        combineSteps
          (if (unmet w c.preconditions).isEmpty then some [PlanStep.mk c]
           else
             match planAux registry w fuel (c :: banned) c.preconditions with
             | none => none
             | some sub => some (sub ++ [PlanStep.mk c]))
          (planAux registry w fuel banned rest)

/-- A recursion-depth bound that the search can never exhaust: every nested
descent bans one more capability, so nesting is bounded by the registry size,
and each level walks at most one precondition list of a registered
capability besides the goal itself. -/
def planFuel (net : Network) (goal : List (String × Bool)) : Nat :=
  goal.length + 1 +
    (net.registry.length + 1) *
      ((net.registry.map (fun c => c.preconditions.length)).sum + 1)

/-- Modelled from the spec: the Planner entry point, taking the goal, the
current world snapshot and the registry contents (§4.4). -/
def plan (net : Network) (goal : List (String × Bool)) :
    Option (List PlanStep) :=
  planAux net.registry net.world (planFuel net goal) [] goal

/-- Modelled from the spec: a Diary Entry is the "immutable record of one
executor iteration: goal, plan, world-state-before, world-state-after,
action-status" (§3).  Field names follow the diary keys the tests read. -/
structure DiaryEntry where
  my_goal : List (String × Bool)
  my_plan : List PlanStep
  the_world_state_before : World
  the_world_state_after : World
  action_status : ActionStatus
deriving DecidableEq

/-- Modelled from the spec: plan execution: "execute each step's capability in
plan order via `act()`, propagating world mutation step-to-step" (§4.5); the
iteration's status comes "from the last executed step" (§4.5), and an empty
plan for an already-satisfied goal yields status SUCCESS (§8). -/
def executePlan (steps : List PlanStep) (w : World) : World × ActionStatus :=
  steps.foldl
    (fun acc step => Capability.act step.action acc.1)
    (w, ActionStatus.SUCCESS)

/-- Modelled from the spec: one executor iteration: "snapshot world, plan,
execute the plan's actions in order, apply effects to the world, classify the
iteration's outcome, append a diary entry" (§2); with no feasible plan it
"still produces a Diary entry (status FAIL, empty plan)" (§4.5). -/
def runIteration (net : Network) (goal : List (String × Bool)) :
    Network × DiaryEntry :=
  let before := net.world
  match plan net goal with
  | none =>
    (net, ⟨goal, [], before, before, ActionStatus.FAIL⟩)
  | some steps =>
    let res := executePlan steps before
    ({ net with world := res.1 }, ⟨goal, steps, before, res.1, res.2⟩)

/-- Modelled from the spec: the AI/Executor loop "runs for a configured number
of iterations" (§2) against a fixed goal, returning the final environment and
the Diary, the "ordered, append-only log of iteration records" (§2). -/
def runAI (net : Network) (goal : List (String × Bool)) :
    Nat → Network × List DiaryEntry
  | 0 => (net, [])
  | n + 1 =>
    let step := runIteration net goal
    let rest := runAI step.1 goal n
    (rest.1, step.2 :: rest.2)

/-- Modelled from the spec: the example action `MonitorBodyTemperature` of
`highcliff.exampleactions`, which is not among the sources; its fixed
preconditions and effects are the ones `test_examples.py` asserts
(`test_action_properties_set_properly_at_action_instantiation`). -/
def monitorBodyTemperatureClass (behavior : Option (List (String × Bool))) :
    CapabilityClass :=
  ⟨[("is_body_temperature_monitored", false)],
   [("is_body_temperature_monitored", true),
    ("is_room_temperature_comfortable", false)],
   behavior⟩

/-- The empty starting environment: empty world, empty registry. -/
def emptyNetwork : Network := ⟨[], []⟩

/-- The declared effects hold in a world: every effect key is present with
its declared value. -/
def effectsMatch (eff : List (String × Bool)) (w : World) : Prop :=
  ∀ kv ∈ eff, World.lookup w kv.1 = some kv.2

/-! Concrete scenario of §8 of the spec: one capability with preconditions
mapping the condition to false and effects mapping it to true, the world
updated to hold the condition false, the goal requiring it true, one
executor iteration. -/

def oneStepClass : CapabilityClass :=
  ⟨[("is_monitored", false)], [("is_monitored", true)], some []⟩

def oneStepConstruction : Network × Option Capability :=
  tryConstruct emptyNetwork oneStepClass

def oneStepNet : Network :=
  Network.update_the_world oneStepConstruction.1 [("is_monitored", false)]

def oneStepGoal : List (String × Bool) := [("is_monitored", true)]

/-- The world snapshot taken just before the executor runs. -/
def oneStepWorldBefore : World := oneStepNet.world

def oneStepDiary : List DiaryEntry := (runAI oneStepNet oneStepGoal 1).2

/-! Concrete success/failure scenarios of the action-status tests: a
body-temperature monitor with a no-op behavior, and one whose behavior
forces the declared effect key back to false before the merge. -/

def mbtGoal : List (String × Bool) := [("is_body_temperature_monitored", true)]

def mbtSuccessNet : Network :=
  Network.update_the_world
    (tryConstruct emptyNetwork (monitorBodyTemperatureClass (some []))).1
    [("is_body_temperature_monitored", false)]

def mbtFailureNet : Network :=
  Network.update_the_world
    (tryConstruct emptyNetwork
      (monitorBodyTemperatureClass
        (some [("is_body_temperature_monitored", false)]))).1
    [("is_body_temperature_monitored", false)]

def mbtSuccessDiary : List DiaryEntry := (runAI mbtSuccessNet mbtGoal 1).2

def mbtFailureDiary : List DiaryEntry := (runAI mbtFailureNet mbtGoal 1).2

/-- The capabilities a successful construction sequence starting at registry
index `n` produces, one per class, in order, with consecutive registration
indices. -/
def buildFrom (n : Nat) : List CapabilityClass → List Capability
  | [] => []
  | cls :: rest =>
    ⟨n, cls.preconditions, cls.effects, cls.behavior.getD []⟩ ::
      buildFrom (n + 1) rest

end Highcliff

namespace GenerateData

/-- A CSV row written by the sensor feed: the formatted timestamp and the
formatted temperature, as the texts `csv.writerow` renders. -/
def CsvRow : Type := String × String

instance : DecidableEq CsvRow := by
  unfold CsvRow; infer_instance

/-- `f.truncate(0)` after `open(file_name, 'w')`: the file content is
cleared. -/
def truncateFile (_file : List CsvRow) : List CsvRow := []

/-- `c.writerow(...)`: one row is written at the current end of the file. -/
def writeRow (file : List CsvRow) (row : CsvRow) : List CsvRow :=
  file ++ [row]

/-- `GenerateData._modCsv`: opens the file in write mode, clears the existing
content, then writes a single timestamp–temperature row. -/
def modCsv (file : List CsvRow) (row : CsvRow) : List CsvRow :=
  writeRow (truncateFile file) row

/-- The effect on the file of the `main` loop performing one `_modCsv` call
per generated reading, in order. -/
def runWrites (file : List CsvRow) (rows : List CsvRow) : List CsvRow :=
  rows.foldl modCsv file

end GenerateData

namespace Highcliff

theorem World.lookup_insertKV (w : World) (k₁ : String) (v₁ : Bool) (k : String) :
    World.lookup (World.insertKV w k₁ v₁) k =
      if k₁ = k then some v₁ else World.lookup w k := by
  induction w with
  | nil => simp [World.insertKV, World.lookup]
  | cons kv rest ih =>
    obtain ⟨k', v'⟩ := kv
    by_cases h : k' = k₁
    · subst h
      simp only [World.insertKV, if_pos rfl]
      by_cases hk : k' = k
      · subst hk; simp [World.lookup]
      · simp [World.lookup, hk]
    · simp only [World.insertKV, if_neg h]
      by_cases hk : k' = k
      · subst hk
        have hk1 : ¬ k₁ = k' := fun hh => h hh.symm
        simp [World.lookup, hk1]
      · simp [World.lookup, hk, ih]

/-- Main merge lemma: looking up a key after an update finds the last value
the patch assigns to that key, and falls back to the prior world otherwise. -/
theorem World.lookup_update (w : World) (p : List (String × Bool)) (k : String) :
    World.lookup (World.update w p) k =
      match findLast p k with
      | some v => some v
      | none => World.lookup w k := by
  induction p generalizing w with
  | nil => simp [World.update, findLast]
  | cons kv rest ih =>
    obtain ⟨k₁, v₁⟩ := kv
    have hstep : World.update w ((k₁, v₁) :: rest) =
        World.update (World.insertKV w k₁ v₁) rest := rfl
    rw [hstep, ih]
    simp only [findLast]
    cases hfl : findLast rest k with
    | some v₂ => simp
    | none =>
      simp only
      rw [World.lookup_insertKV]
      by_cases hk : k₁ = k <;> simp [hk]

/-- The first component of `act` is the merge of the prior world with the
effects as they stand after the behavior ran. -/
theorem Capability.act_world (c : Capability) (w : World) :
    (c.act w).1 = World.update w c.effectsAfterBehavior := rfl

/-- A goal condition that is present in the world with its required value
holds under the absent-is-false reading. -/
theorem condHolds_of_lookup (w : World) (k : String) (v : Bool)
    (h : World.lookup w k = some v) : condHolds w k v = true := by
  simp [condHolds, h]

theorem combineSteps_none_right (x : Option (List PlanStep)) :
    combineSteps x none = none := by
  cases x <;> rfl

/-- The planner search succeeds with the empty plan on a goal whose every
condition already holds, for any sufficiently large fuel. -/
theorem planAux_of_satisfied (registry : List Capability) (w : World) :
    ∀ (fuel : Nat) (banned : List Capability) (goal : List (String × Bool)),
      goal.length ≤ fuel →
      (∀ kv ∈ goal, condHolds w kv.1 kv.2 = true) →
      planAux registry w fuel banned goal = some [] := by
  intro fuel
  induction fuel with
  | zero =>
    intro banned goal hlen _
    match goal with
    | [] => rfl
    | _ :: _ => simp at hlen
  | succ fuel ih =>
    intro banned goal hlen hsat
    match goal with
    | [] => rfl
    | (k, v) :: rest =>
      have hk : condHolds w k v = true := hsat (k, v) (List.mem_cons_self _ _)
      have : planAux registry w fuel banned rest = some [] := by
        refine ih banned rest ?_ ?_
        · simpa [Nat.succ_le_succ_iff] using hlen
        · intro kv hkv; exact hsat kv (List.mem_cons_of_mem _ hkv)
      simp [planAux, hk, this]

/-- The planner search fails when some goal condition is unmet and no
registered capability's declared effects produce it. -/
theorem planAux_of_unproducible (registry : List Capability) (w : World)
    (k : String) (v : Bool)
    (hprod : ∀ c ∈ registry, World.lookup c.effects k ≠ some v) :
    ∀ (fuel : Nat) (banned : List Capability) (goal : List (String × Bool)),
      (k, v) ∈ goal →
      condHolds w k v = false →
      planAux registry w fuel banned goal = none := by
  intro fuel
  induction fuel with
  | zero =>
    intro banned goal hmem _
    match goal with
    | [] => exact absurd hmem (List.not_mem_nil _)
    | _ :: _ => rfl
  | succ fuel ih =>
    intro banned goal hmem hold
    match goal with
    | [] => exact absurd hmem (List.not_mem_nil _)
    | (k', v') :: rest =>
      rcases List.mem_cons.mp hmem with heq | hrest
      · have hk : k' = k := (congrArg Prod.fst heq).symm
        have hv : v' = v := (congrArg Prod.snd heq).symm
        subst hk; subst hv
        have hcand : candidatesFor registry banned k' v' = [] := by
          refine List.filter_eq_nil_iff.mpr ?_
          intro c hc
          simp only [Bool.and_eq_true, beq_iff_eq, not_and]
          intro hlk
          exact absurd hlk (hprod c hc)
        simp [planAux, hold, hcand, pickBest]
      · have hrp : planAux registry w fuel banned rest = none :=
          ih banned rest hrest hold
        simp only [planAux, hrp]
        cases hcv : condHolds w k' v' with
        | true => simp
        | false =>
          simp only [Bool.false_eq_true, if_false]
          cases hpb : pickBest w (candidatesFor registry banned k' v') with
          | none => rfl
          | some c => exact combineSteps_none_right _

/-- The fuel given to the top-level planner covers the goal list. -/
theorem goal_length_le_planFuel (net : Network)
    (goal : List (String × Bool)) : goal.length ≤ planFuel net goal := by
  unfold planFuel
  generalize (net.registry.length + 1) *
    ((net.registry.map fun c => c.preconditions.length).sum + 1) = X
  omega

/-- An iteration that found no plan leaves the environment untouched and
records a FAIL entry with an empty plan over the unchanged world. -/
theorem runIteration_of_plan_none (net : Network)
    (goal : List (String × Bool)) (h : plan net goal = none) :
    runIteration net goal =
      (net, ⟨goal, [], net.world, net.world, ActionStatus.FAIL⟩) := by
  simp [runIteration, h]

/-- An iteration whose plan is empty executes nothing and records a SUCCESS
entry with an empty plan over the unchanged world. -/
theorem runIteration_of_plan_nil (net : Network)
    (goal : List (String × Bool)) (h : plan net goal = some []) :
    runIteration net goal =
      (net, ⟨goal, [], net.world, net.world, ActionStatus.SUCCESS⟩) := by
  simp [runIteration, h, executePlan]

/-- Planning never touches the registry: an iteration's environment keeps
exactly the registered capabilities. -/
theorem runIteration_registry (net : Network)
    (goal : List (String × Bool)) :
    (runIteration net goal).1.capabilities = net.capabilities := by
  unfold runIteration
  cases h : plan net goal <;> simp [Network.capabilities]

/-- A successful construction sequence appends the corresponding
capabilities, with consecutive registration indices, to the registry, in
construction order, and returns them in that order; the world is not
touched. -/
theorem constructAll_registry (clss : List CapabilityClass) :
    ∀ net : Network, (∀ cls ∈ clss, cls.behavior.isSome = true) →
      (constructAll net clss).1.registry
          = net.registry ++ buildFrom net.registry.length clss
        ∧ (constructAll net clss).2 = buildFrom net.registry.length clss
        ∧ (constructAll net clss).1.world = net.world := by
  induction clss with
  | nil => intro net _; simp [constructAll, buildFrom]
  | cons cls rest ih =>
    intro net h
    have hb : cls.behavior.isSome = true := h cls (List.mem_cons_self _ _)
    obtain ⟨p, hp⟩ := Option.isSome_iff_exists.mp hb
    have ht : tryConstruct net cls =
        ({ net with registry := net.registry ++
            [⟨net.registry.length, cls.preconditions, cls.effects, p⟩] },
         some ⟨net.registry.length, cls.preconditions, cls.effects, p⟩) := by
      simp [tryConstruct, construct, hp]
    have hrest := ih
      { net with registry := net.registry ++
          [⟨net.registry.length, cls.preconditions, cls.effects, p⟩] }
      (fun c hc => h c (List.mem_cons_of_mem _ hc))
    obtain ⟨hreg, hcaps, hworld⟩ := hrest
    refine ⟨?_, ?_, ?_⟩
    · simp only [constructAll, ht]
      simp only at hreg
      rw [hreg]
      simp [buildFrom, hp, List.length_append]
    · simp only [constructAll, ht]
      simp only at hcaps
      rw [hcaps]
      simp [buildFrom, hp, List.length_append]
    · simp only [constructAll, ht]
      simpa using hworld

theorem buildFrom_map_id (clss : List CapabilityClass) :
    ∀ n, (buildFrom n clss).map Capability.id = List.range' n clss.length := by
  induction clss with
  | nil => intro n; simp [buildFrom]
  | cons cls rest ih =>
    intro n
    simp [buildFrom, List.range'_succ, ih]

theorem buildFrom_length (clss : List CapabilityClass) (n : Nat) :
    (buildFrom n clss).length = clss.length := by
  have := congrArg List.length (buildFrom_map_id clss n)
  simpa using this

theorem buildFrom_nodup (clss : List CapabilityClass) (n : Nat) :
    (buildFrom n clss).Nodup := by
  refine List.Nodup.of_map Capability.id ?_
  rw [buildFrom_map_id]
  exact List.nodup_range' _ _

/-- C1: in the concrete one-step scenario — empty World, one capability with
preconditions mapping the condition to false and effects mapping it to true,
the World updated to hold the condition false, the goal requiring it true,
the Executor run for exactly one iteration — the first Diary entry has
status SUCCESS, its goal field is the supplied goal, its plan has exactly
one step referencing the registered capability, its recorded
world-state-before is the pre-run world snapshot, and its world-state-after
assigns the goal condition the value true. -/
theorem one_step_scenario_diary_correct :
    (oneStepDiary.head?.map DiaryEntry.action_status
        = some ActionStatus.SUCCESS)
  ∧ (oneStepDiary.head?.map DiaryEntry.my_goal = some oneStepGoal)
  ∧ (oneStepDiary.head?.map (fun e => e.my_plan.length) = some 1)
  ∧ (oneStepDiary.head?.bind (fun e => e.my_plan.head?.map PlanStep.action)
        = oneStepConstruction.2)
  ∧ (oneStepConstruction.2.isSome = true)
  ∧ (oneStepDiary.head?.map DiaryEntry.the_world_state_before
        = some oneStepWorldBefore)
  ∧ (oneStepDiary.head?.bind
        (fun e => World.lookup e.the_world_state_after "is_monitored")
        = some true) := by
  decide

/-- C2: a capability type lacking a `behavior` override fails to construct
with the abstract-method error and registers nothing, while a type supplying
one constructs successfully and grows the Registry by exactly one, with the
new capability registered at the end. -/
theorem behavior_required_for_registration (net : Network)
    (cls : CapabilityClass) :
    ((construct net cls).toOption = none ↔ cls.behavior = none)
  ∧ (cls.behavior = none → tryConstruct net cls = (net, none))
  ∧ (∀ net' c, construct net cls = Except.ok (net', c) →
      net'.registry.length = net.registry.length + 1
        ∧ net'.registry = net.registry ++ [c]) := by
  refine ⟨?_, ?_, ?_⟩
  · cases hb : cls.behavior <;> simp [construct, hb, Except.toOption]
  · intro hb; simp [tryConstruct, construct, hb]
  · intro net' c h
    cases hb : cls.behavior with
    | none => simp [construct, hb] at h
    | some p =>
      simp only [construct, hb] at h
      obtain ⟨hnet, hc⟩ := Prod.mk.injEq .. ▸ Except.ok.injEq .. ▸ h
      subst hc
      rw [← hnet]
      simp

/-- Witness for C2 at a concrete capability type with and without a
`behavior` override. -/
theorem behavior_required_for_registration_witness :
    tryConstruct emptyNetwork ⟨[("a", true)], [("b", false)], none⟩
      = (emptyNetwork, none)
  ∧ (({ world := [], registry := [⟨0, [("a", true)], [("b", false)], []⟩] } :
        Network).registry.length = emptyNetwork.registry.length + 1
      ∧ ({ world := [], registry := [⟨0, [("a", true)], [("b", false)], []⟩] } :
          Network).registry
        = emptyNetwork.registry ++ [⟨0, [("a", true)], [("b", false)], []⟩]) :=
  ⟨(behavior_required_for_registration emptyNetwork
      ⟨[("a", true)], [("b", false)], none⟩).2.1 rfl,
   (behavior_required_for_registration emptyNetwork
      ⟨[("a", true)], [("b", false)], some []⟩).2.2 _ _ rfl⟩

/-- C3: `act()` records SUCCESS exactly when the final effect values in the
resulting world match the declared effects; in the concrete success scenario
(no-op behavior) the first diary entry has status SUCCESS, and in the
concrete failure scenario (the behavior forces the declared effect key back
to false before the merge) it has status FAIL. -/
theorem act_status_matches_declared_effects :
    (mbtSuccessDiary.head?.map DiaryEntry.action_status
        = some ActionStatus.SUCCESS)
  ∧ (mbtFailureDiary.head?.map DiaryEntry.action_status
        = some ActionStatus.FAIL)
  ∧ (∀ (c : Capability) (w : World),
      ((c.act w).2 = ActionStatus.SUCCESS
        ↔ effectsMatch c.effects (c.act w).1)) := by
  refine ⟨by decide, by decide, ?_⟩
  intro c w
  have hact : (c.act w).2 = (if c.effects.all
      (fun kv => World.lookup (World.update w c.effectsAfterBehavior) kv.1
        == some kv.2)
      then ActionStatus.SUCCESS else ActionStatus.FAIL) := rfl
  have hw : (c.act w).1 = World.update w c.effectsAfterBehavior := rfl
  rw [hact, hw]
  cases hb : c.effects.all
      (fun kv => World.lookup (World.update w c.effectsAfterBehavior) kv.1
        == some kv.2) with
  | true =>
    simp only [if_pos rfl]
    constructor
    · intro _ kv hm
      have := List.all_eq_true.mp hb kv hm
      simpa [beq_iff_eq] using this
    · intro _; rfl
  | false =>
    simp only [Bool.false_eq_true, if_false]
    constructor
    · intro h; exact absurd h (by simp)
    · intro hall
      exfalso
      have hall' : c.effects.all
          (fun kv => World.lookup (World.update w c.effectsAfterBehavior) kv.1
            == some kv.2) = true := by
        refine List.all_eq_true.mpr ?_
        intro kv hm
        simpa [beq_iff_eq] using hall kv hm
      rw [hb] at hall'
      exact absurd hall' (by simp)

/-- C4: `act()` turns the World into exactly the merge of the prior World
with the capability's effects as they stand after the behavior ran: every
key of that effects mapping ends with its effect value, and every other key
keeps its prior value — the World is merged into, never replaced. -/
theorem act_merges_effects_into_world (c : Capability) (w : World) :
    ((c.act w).1 = World.update w c.effectsAfterBehavior)
  ∧ (∀ k v, findLast c.effectsAfterBehavior k = some v →
      World.lookup (c.act w).1 k = some v)
  ∧ (∀ k, findLast c.effectsAfterBehavior k = none →
      World.lookup (c.act w).1 k = World.lookup w k) := by
  refine ⟨rfl, ?_, ?_⟩
  · intro k v h
    rw [Capability.act_world, World.lookup_update, h]
  · intro k h
    rw [Capability.act_world, World.lookup_update, h]

/-- Witness for C4: at a concrete capability and world, the effect key gets
its effect value and an untouched key keeps its prior value. -/
theorem act_merges_effects_into_world_witness :
    World.lookup
        ((Capability.act ⟨0, [], [("a", true)], []⟩ [("b", false)]).1) "a"
      = some true
  ∧ World.lookup
        ((Capability.act ⟨0, [], [("a", true)], []⟩ [("b", false)]).1) "b"
      = World.lookup [("b", false)] "b" :=
  ⟨(act_merges_effects_into_world ⟨0, [], [("a", true)], []⟩
      [("b", false)]).2.1 "a" true (by decide),
   (act_merges_effects_into_world ⟨0, [], [("a", true)], []⟩
      [("b", false)]).2.2 "b" (by decide)⟩

/-- C5: after a sequence of successful constructions starting from an empty
registry, the registry holds exactly the constructed capabilities, each
once, in construction order with consecutive registration indices, the
capability query returns them in that order, and running an executor
iteration (whatever the goal) leaves the registry as is. -/
theorem registry_reflects_construction_order (w : World)
    (clss : List CapabilityClass)
    (h : ∀ cls ∈ clss, cls.behavior.isSome = true) :
    ((constructAll ⟨w, []⟩ clss).1.capabilities = (constructAll ⟨w, []⟩ clss).2)
  ∧ ((constructAll ⟨w, []⟩ clss).2 = buildFrom 0 clss)
  ∧ ((constructAll ⟨w, []⟩ clss).1.capabilities).Nodup
  ∧ ((constructAll ⟨w, []⟩ clss).1.capabilities.length = clss.length)
  ∧ (∀ (net : Network) (goal : List (String × Bool)),
      (runIteration net goal).1.capabilities = net.capabilities) := by
  obtain ⟨hreg, hcaps, _⟩ := constructAll_registry clss ⟨w, []⟩ h
  simp only [Network.capabilities] at *
  refine ⟨?_, ?_, ?_, ?_, ?_⟩
  · rw [hreg, hcaps]; rfl
  · simpa using hcaps
  · rw [hreg]; simpa using buildFrom_nodup clss 0
  · rw [hreg]; simpa using buildFrom_length clss 0
  · intro net goal; exact runIteration_registry net goal

/-- Witness for C5 at two concrete capability types constructed in order. -/
theorem registry_reflects_construction_order_witness :
    ((constructAll ⟨[], []⟩
        [⟨[("a", true)], [("b", true)], some []⟩,
         ⟨[("c", false)], [("d", false)], some []⟩]).1.capabilities
      = (constructAll ⟨[], []⟩
          [⟨[("a", true)], [("b", true)], some []⟩,
           ⟨[("c", false)], [("d", false)], some []⟩]).2)
  ∧ ((constructAll ⟨[], []⟩
        [⟨[("a", true)], [("b", true)], some []⟩,
         ⟨[("c", false)], [("d", false)], some []⟩]).2
      = buildFrom 0
          [⟨[("a", true)], [("b", true)], some []⟩,
           ⟨[("c", false)], [("d", false)], some []⟩])
  ∧ ((constructAll ⟨[], []⟩
        [⟨[("a", true)], [("b", true)], some []⟩,
         ⟨[("c", false)], [("d", false)], some []⟩]).1.capabilities).Nodup
  ∧ ((constructAll ⟨[], []⟩
        [⟨[("a", true)], [("b", true)], some []⟩,
         ⟨[("c", false)], [("d", false)], some []⟩]).1.capabilities.length
      = 2)
  ∧ (∀ (net : Network) (goal : List (String × Bool)),
      (runIteration net goal).1.capabilities = net.capabilities) :=
  registry_reflects_construction_order []
    [⟨[("a", true)], [("b", true)], some []⟩,
     ⟨[("c", false)], [("d", false)], some []⟩]
    (by decide)

/-- C6: when the goal has a condition that currently fails and that no
registered capability's declared effects can produce, planning fails, and
the executor iteration still totally computes and appends a Diary entry with
status FAIL and an empty plan over the unchanged world — planning failure is
recorded data, not an exception. -/
theorem no_plan_records_fail_entry (net : Network)
    (goal : List (String × Bool)) (k : String) (v : Bool)
    (hmem : (k, v) ∈ goal)
    (hold : condHolds net.world k v = false)
    (hprod : ∀ c ∈ net.registry, World.lookup c.effects k ≠ some v) :
    plan net goal = none
  ∧ (runAI net goal 1).2
      = [⟨goal, [], net.world, net.world, ActionStatus.FAIL⟩] := by
  have hp : plan net goal = none :=
    planAux_of_unproducible net.registry net.world k v hprod _ _ goal hmem hold
  refine ⟨hp, ?_⟩
  simp [runAI, runIteration_of_plan_none net goal hp]

/-- Witness for C6 at a concrete environment whose one capability cannot
produce the goal condition. -/
theorem no_plan_records_fail_entry_witness :
    plan mbtSuccessNet [("impossible", true)] = none
  ∧ (runAI mbtSuccessNet [("impossible", true)] 1).2
      = [⟨[("impossible", true)], [], mbtSuccessNet.world, mbtSuccessNet.world,
          ActionStatus.FAIL⟩] :=
  no_plan_records_fail_entry mbtSuccessNet [("impossible", true)]
    "impossible" true (by decide) (by decide) (by decide)

/-- C7: when every goal condition is already present in the World with its
required value, the Planner returns the empty plan and the Executor's first
Diary entry has status SUCCESS with an empty plan. -/
theorem satisfied_goal_empty_plan_success (net : Network)
    (goal : List (String × Bool)) (n : Nat)
    (h : ∀ kv ∈ goal, World.lookup net.world kv.1 = some kv.2) :
    plan net goal = some []
  ∧ (runAI net goal (n + 1)).2.head?
      = some ⟨goal, [], net.world, net.world, ActionStatus.SUCCESS⟩ := by
  have hsat : ∀ kv ∈ goal, condHolds net.world kv.1 kv.2 = true :=
    fun kv hm => condHolds_of_lookup _ _ _ (h kv hm)
  have hp : plan net goal = some [] :=
    planAux_of_satisfied net.registry net.world _ _ goal
      (goal_length_le_planFuel net goal) hsat
  refine ⟨hp, ?_⟩
  simp [runAI, runIteration_of_plan_nil net goal hp]

/-- Witness for C7 at a concrete already-satisfied goal. -/
theorem satisfied_goal_empty_plan_success_witness :
    plan ⟨[("a", true)], []⟩ [("a", true)] = some []
  ∧ (runAI ⟨[("a", true)], []⟩ [("a", true)] 1).2.head?
      = some ⟨[("a", true)], [], [("a", true)], [("a", true)],
          ActionStatus.SUCCESS⟩ :=
  satisfied_goal_empty_plan_success ⟨[("a", true)], []⟩ [("a", true)] 0
    (by decide)

/-- C8: updating the World twice in succession with the same patch yields
the same world mapping as updating once — the value of every condition name
agrees. -/
theorem world_update_idempotent (w : World) (p : List (String × Bool))
    (k : String) :
    World.lookup (World.update (World.update w p) p) k
      = World.lookup (World.update w p) k := by
  rw [World.lookup_update, World.lookup_update]
  cases hfl : findLast p k <;> simp

/-- C10: every concrete subtype of `MonitorBodyTemperature` supplying a
behavior override constructs, in any environment, a capability whose
preconditions mapping is exactly the condition being unmonitored and whose
effects mapping is exactly monitored-true and room-comfortable-false, fixed
at construction. -/
theorem monitorBodyTemperature_properties (net : Network)
    (p : List (String × Bool)) :
    (construct net (monitorBodyTemperatureClass (some p))).toOption.map
        (fun nc => (nc.2.preconditions, nc.2.effects))
      = some ([("is_body_temperature_monitored", false)],
              [("is_body_temperature_monitored", true),
               ("is_room_temperature_comfortable", false)]) := rfl

end Highcliff

namespace GenerateData

/-- C9 counterexample: two successive periodic writes do not leave both
readings in the file — the file holds only the one most recent row, because
`_modCsv` truncates before writing. -/
theorem writes_do_not_accumulate :
    GenerateData.runWrites [] [("t1", "36.5"), ("t2", "37.0")]
      ≠ [("t1", "36.5"), ("t2", "37.0")]
  ∧ GenerateData.runWrites [] [("t1", "36.5"), ("t2", "37.0")]
      = [("t2", "37.0")] := by
  decide

/-- C9 amended: each periodic write truncates the output file and writes a
single timestamp–temperature row, so after any positive number of writes the
file contains exactly the most recent reading; earlier readings are
discarded, not preserved. -/
theorem file_holds_last_reading (file rows : List CsvRow) (r : CsvRow)
    (h : rows.getLast? = some r) :
    runWrites file rows = [r] := by
  induction rows generalizing file with
  | nil => exact Option.noConfusion h
  | cons x rest ih =>
    match rest, ih, h with
    | [], _, h =>
      have hx : x = r := by simpa using h
      subst hx
      rfl
    | y :: t, ih, h =>
      have h' : (y :: t).getLast? = some r := by
        simpa [List.getLast?_cons_cons] using h
      exact ih (modCsv file x) h'

/-- Witness for the amended C9 at a concrete write sequence. -/
theorem file_holds_last_reading_witness :
    runWrites [] [("t1", "36.5"), ("t2", "37.0")] = [("t2", "37.0")] :=
  file_holds_last_reading [] [("t1", "36.5"), ("t2", "37.0")]
    ("t2", "37.0") (by decide)

end GenerateData
